import Mathlib

/-!
Shallow embedding of `src/sorter.py` (sakura_sorter) and verification of the
specification's claims about it.

Conventions of the embedding:

* Python strings are `List Char`.  `Char.toLower` stands for `str.lower`
  (they agree on ASCII, which is all the tag machinery distinguishes).
* File sizes are `Nat`, file contents `List Nat` (a list of bytes), and the
  filesystem a finite record of directories and of full-path-to-content
  associations (`FS`).
* `wait_for_download` makes three system calls per loop iteration
  (`os.path.exists`, `os.path.getsize`, `open`).  The observed file is being
  written concurrently by its producer, so each poll is an environment-given
  `FileObs`: `present` is what `os.path.exists` answers, `sizeRead` is
  `some size` when `os.path.getsize` succeeds and `none` when it raises
  `OSError` (the file vanished between the two calls), and `openRes` tells
  what `open(file_path, "rb")` does when attempted: succeed, raise
  `PermissionError` (the only exception the code catches), or raise a
  non-Permission `OSError` such as `FileNotFoundError` (the file vanished
  between `os.path.getsize` and the `open`), which nothing catches.  A
  raised exception that the Python code does not catch is modelled as
  `Except.error ()`.
* `shutil.move` is embedded following the CPython implementation for the
  regular-file case: `os.rename` first, and on `OSError` a copy
  (`copy2`) followed by `os.unlink` of the source.  Which of those paths
  runs, and whether the copy completes, is an environment choice
  (`MoveBeh`): `rename` = same-volume rename, `copy` = completed
  cross-volume copy-then-delete, `copyFail k` = the copy raised after `k`
  bytes were written (`shutil.move` performs no cleanup of the partial
  destination file), `copyOpenFail` = opening the destination failed before
  anything was written.
-/

/-! ### The stability loop: `AutoSortHandler.wait_for_download` -/

/-- Outcome of the `open(file_path, "rb")` probe at line 62 when it is
attempted: it succeeds, it raises `PermissionError` (caught at line 64), or
it raises a non-Permission `OSError` — e.g. `FileNotFoundError` when the
file vanished after the size read — which no handler catches. -/
inductive OpenRes where
  | ok : OpenRes
  | permErr : OpenRes
  | goneErr : OpenRes
  deriving DecidableEq

structure FileObs where
  present : Bool
  sizeRead : Option Nat
  openRes : OpenRes
  deriving DecidableEq

/-- One iteration of the `while elapsed_time < timeout` loop of
`wait_for_download` (src/sorter.py lines 50-69), with `fuel` the number of
iterations the `elapsed_time < timeout` guard still allows and `k` the index
of the current poll in the observation trace.  `prev` is `previous_size`,
initially `-1`.  The branches mirror the source line by line: a missing path
sleeps and retries without touching `previous_size`; a failing
`os.path.getsize` raises an `OSError` that nothing catches; an equal size
with a successful `open` returns `True`; a `PermissionError` from `open` is
swallowed and the loop continues; any other `OSError` from `open` (the file
gone again) is caught by nothing and escapes; otherwise `previous_size` is
updated and the loop continues.  Exhausted fuel is the loop falling through
to the `print`/`return False` at lines 71-72. -/
def waitAux (obs : Nat → FileObs) : Nat → Nat → Int → Except Unit Bool
  | 0, _, _ => Except.ok false
  | fuel + 1, k, prev =>
    if (obs k).present then
      match (obs k).sizeRead with
      | none => Except.error ()
      | some current =>
        if (current : Int) = prev then
          match (obs k).openRes with
          | OpenRes.ok => Except.ok true
          | OpenRes.permErr => waitAux obs fuel (k + 1) (current : Int)
          | OpenRes.goneErr => Except.error ()
        else waitAux obs fuel (k + 1) (current : Int)
    else waitAux obs fuel (k + 1) prev

/-- Number of iterations the loop guard `elapsed_time < timeout` admits when
`elapsed_time` starts at `0` and grows by `interval` per iteration: the
ceiling of `timeout / interval` (for `interval > 0`). -/
def iterCount (timeout interval : Nat) : Nat := (timeout + interval - 1) / interval

/-- `AutoSortHandler.wait_for_download` (src/sorter.py lines 45-72),
defaults `timeout=30`, `interval=1`.  `Except.ok true` is `return True`,
`Except.ok false` the timeout fall-through (which also prints the timed-out
path), `Except.error ()` an uncaught exception escaping the method. -/
def wait_for_download (obs : Nat → FileObs) (timeout interval : Nat) : Except Unit Bool :=
  waitAux obs (iterCount timeout interval) 0 (-1)

/-! ### The tag extractor: `AutoSortHandler.extract_tag` -/

/-- The characters matched by `.*?` in `TAG_PATTERN = r"^(\[.*?\])"` up to
the closing `]`: the shortest run of characters followed by `]`. Python's
`.` (no `re.DOTALL`) matches any character except `'\n'`, so a newline
before the first `]` makes the whole pattern fail. Returns the run without
the closing bracket. -/
def tagBody : List Char → Option (List Char)
  | [] => none
  | c :: cs =>
    if c = ']' then some []
    else if c = '\n' then none
    else (tagBody cs).map (fun b => c :: b)

/-- `AutoSortHandler.extract_tag` (src/sorter.py lines 74-76):
`re.match(TAG_PATTERN, file_name)` anchors at the start of the name, so the
name must begin with `[`; the returned group is the brackets and everything
between them, lower-cased.  `None` (no match) is `none`. -/
def extract_tag (file_name : List Char) : Option (List Char) :=
  match file_name with
  | [] => none
  | c :: rest =>
    if c = '[' then
      (tagBody rest).map (fun body => (('[' :: body) ++ [']']).map Char.toLower)
    else none

/-! ### Decimal rendering of the collision counter (`f"{base}_{counter}{ext}"`) -/

/-- Decimal digits of `n`, most significant first: the characters Python's
`str(counter)` produces inside the f-string of `get_unique_filename`. -/
def natDigits (n : Nat) : List Char :=
  if _h : n < 10 then [Nat.digitChar n]
  else natDigits (n / 10) ++ [Nat.digitChar (n % 10)]
  termination_by n
  decreasing_by exact Nat.div_lt_self (by omega) (by omega)

def digitVal (c : Char) : Nat := c.toNat - 48

/-- Value of a most-significant-first digit string; retraction used to prove
`natDigits` injective. -/
def digitsVal (ds : List Char) : Nat := ds.foldl (fun a c => 10 * a + digitVal c) 0

/-! ### `os.path.splitext` on a bare file name -/

/-- Split a name at its last `'.'`, returning `(stem, dot-and-after)`; `none`
when there is no `'.'`.  Mirrors `p.rfind(extsep)` in CPython's
`genericpath._splitext`. -/
def lastDotSplit : List Char → Option (List Char × List Char)
  | [] => none
  | c :: cs =>
    match lastDotSplit cs with
    | some (b, e) => some (c :: b, e)
    | none => if c = '.' then some ([], '.' :: cs) else none

/-- `os.path.splitext(file_name)` for a name with no directory separator:
split at the last dot unless every character before that dot is itself a dot
(CPython skips the leading dots of the basename, so `".bashrc"` and
`"..gz"` have no extension). -/
def splitext (file_name : List Char) : List Char × List Char :=
  match lastDotSplit file_name with
  | some (b, e) => if b.any (fun c => c != '.') then (b, e) else (file_name, [])
  | none => (file_name, [])

/-- The `counter`-th candidate name tried by the `while` loop of
`get_unique_filename` (src/sorter.py lines 16-24): the literal name for
`counter = 0` (tried before the loop runs), and
`f"{base_name}_{counter}{ext}"` for `counter ≥ 1`. -/
def candidate (file_name : List Char) (counter : Nat) : List Char :=
  if counter = 0 then file_name
  else (splitext file_name).1 ++ '_' :: (natDigits counter ++ (splitext file_name).2)

/-! ### The filesystem model -/

/-- Association of full paths to file contents, first entry wins (the model
of the visible files; a path carries at most one file). -/
def lookupFile : List (List Char × List Nat) → List Char → Option (List Nat)
  | [], _ => none
  | (q, c) :: es, p => if q = p then some c else lookupFile es p

/-- Remove every entry at path `p`. -/
def dropFile : List (List Char × List Nat) → List Char → List (List Char × List Nat)
  | [], _ => []
  | (q, c) :: es, p => if q = p then dropFile es p else (q, c) :: dropFile es p

/-- The filesystem as the move logic observes it: the set of existing
directories and the files with their contents, both finite. -/
structure FS where
  dirs : List (List Char)
  files : List (List Char × List Nat)
  deriving DecidableEq

def FS.file (fs : FS) (p : List Char) : Option (List Nat) := lookupFile fs.files p

def FS.isDir (fs : FS) (p : List Char) : Bool := decide (p ∈ fs.dirs)

/-- `os.path.exists`: true for a file or a directory at that path. -/
def pathExists (fs : FS) (p : List Char) : Bool := (fs.file p).isSome || fs.isDir p

def delFile (fs : FS) (p : List Char) : FS := ⟨fs.dirs, dropFile fs.files p⟩

def setFile (fs : FS) (p : List Char) (c : List Nat) : FS :=
  ⟨fs.dirs, (p, c) :: dropFile fs.files p⟩

/-- `os.path.join(d, n)` for a directory path and a bare file name. -/
def joinP (d n : List Char) : List Char := d ++ '/' :: n

/-- `os.path.basename`: the part of the path after its last `'/'`. -/
def basenameP (p : List Char) : List Char :=
  (p.reverse.takeWhile (fun c => c != '/')).reverse

/-! ### Facts about the decimal rendering (needed to define the resolver) -/

theorem digitVal_digitChar : ∀ d < 10, digitVal (Nat.digitChar d) = d := by decide

theorem digitsVal_append (xs : List Char) (c : Char) :
    digitsVal (xs ++ [c]) = 10 * digitsVal xs + digitVal c := by
  simp [digitsVal, List.foldl_append]

theorem digitsVal_natDigits (n : Nat) : digitsVal (natDigits n) = n := by
  induction n using Nat.strong_induction_on with
  | _ n ih =>
    rw [natDigits]
    split
    · simpa [digitsVal] using digitVal_digitChar n (by omega)
    · rw [digitsVal_append, ih (n / 10) (Nat.div_lt_self (by omega) (by omega)),
        digitVal_digitChar (n % 10) (Nat.mod_lt _ (by omega))]
      omega

theorem natDigits_inj : Function.Injective natDigits := by
  intro a b h
  have h2 := congrArg digitsVal h
  rwa [digitsVal_natDigits, digitsVal_natDigits] at h2

theorem natDigits_ne_nil (n : Nat) : natDigits n ≠ [] := by
  rw [natDigits]
  split <;> simp

/-! ### Facts about `splitext` (needed to define the resolver) -/

theorem lastDotSplit_none (s : List Char) : lastDotSplit s = none ↔ '.' ∉ s := by
  induction s with
  | nil => simp [lastDotSplit]
  | cons c cs ih =>
    rw [lastDotSplit]
    cases h : lastDotSplit cs with
    | some be =>
      have hcs : '.' ∈ cs := by
        by_contra hn
        rw [ih.mpr hn] at h
        simp at h
      simp [List.mem_cons, hcs]
    | none =>
      by_cases hc : c = '.'
      · simp [hc, List.mem_cons]
      · simp only [if_neg hc, List.mem_cons, true_iff]
        push_neg
        exact ⟨fun e => hc e.symm, ih.mp h⟩

theorem lastDotSplit_some (b suf : List Char) (hsuf : '.' ∉ suf) :
    lastDotSplit (b ++ '.' :: suf) = some (b, '.' :: suf) := by
  induction b with
  | nil =>
    rw [List.nil_append, lastDotSplit, (lastDotSplit_none suf).mpr hsuf]
    simp
  | cons c b ih =>
    rw [List.cons_append, lastDotSplit, ih]

theorem lastDotSplit_eq_some (s b e : List Char) (h : lastDotSplit s = some (b, e)) :
    ∃ suf, s = b ++ '.' :: suf ∧ e = '.' :: suf ∧ '.' ∉ suf := by
  induction s generalizing b e with
  | nil => simp [lastDotSplit] at h
  | cons c cs ih =>
    rw [lastDotSplit] at h
    cases hcs : lastDotSplit cs with
    | some be =>
      obtain ⟨b', e'⟩ := be
      rw [hcs] at h
      simp only [Option.some.injEq, Prod.mk.injEq] at h
      obtain ⟨suf, h1, h2, h3⟩ := ih b' e' hcs
      exact ⟨suf, by simp [← h.1, h1], by simp [← h.2, h2], h3⟩
    | none =>
      rw [hcs] at h
      by_cases hc : c = '.'
      · subst hc
        rw [if_pos rfl] at h
        simp only [Option.some.injEq, Prod.mk.injEq] at h
        exact ⟨cs, by simp [← h.1], by simp [← h.2], (lastDotSplit_none cs).mp hcs⟩
      · simp [hc] at h

theorem splitext_append (name : List Char) :
    (splitext name).1 ++ (splitext name).2 = name := by
  rw [splitext]
  cases h : lastDotSplit name with
  | none => simp
  | some be =>
    obtain ⟨b, e⟩ := be
    obtain ⟨suf, h1, h2, _⟩ := lastDotSplit_eq_some _ _ _ h
    cases hany : b.any (fun c => c != '.') <;> simp [hany, h1, h2]

/-! ### `get_unique_filename` (src/sorter.py lines 16-24) -/

theorem candidate_length (name : List Char) (k : Nat) (hk : k ≠ 0) :
    (candidate name k).length = name.length + 1 + (natDigits k).length := by
  have h := congrArg List.length (splitext_append name)
  rw [candidate, if_neg hk]
  simp only [List.length_append, List.length_cons] at h ⊢
  omega

theorem candidate_inj (name : List Char) : Function.Injective (candidate name) := by
  intro a b h
  by_cases ha : a = 0 <;> by_cases hb : b = 0
  · omega
  · exfalso
    have hl := congrArg List.length h
    rw [candidate_length name b hb] at hl
    have := natDigits_ne_nil b
    rw [candidate, if_pos ha] at hl
    cases hd : natDigits b with
    | nil => exact (natDigits_ne_nil b) hd
    | cons x xs => rw [hd] at hl; simp at hl; omega
  · exfalso
    have hl := congrArg List.length h
    rw [candidate_length name a ha] at hl
    rw [candidate, if_pos hb] at hl
    cases hd : natDigits a with
    | nil => exact (natDigits_ne_nil a) hd
    | cons x xs => rw [hd] at hl; simp at hl; omega
  · rw [candidate, if_neg ha, candidate, if_neg hb] at h
    have h2 := List.append_cancel_left h
    simp only [List.cons.injEq, true_and] at h2
    exact natDigits_inj (List.append_cancel_right h2)

theorem lookupFile_isSome_mem (es : List (List Char × List Nat)) (p : List Char)
    (h : (lookupFile es p).isSome = true) : p ∈ es.map Prod.fst := by
  induction es with
  | nil => simp [lookupFile] at h
  | cons e es ih =>
    obtain ⟨q, c⟩ := e
    rw [lookupFile] at h
    by_cases hq : q = p
    · simp [hq]
    · rw [if_neg hq] at h
      exact List.mem_cons_of_mem _ (ih h)

/-- The `while os.path.exists(new_file_path)` loop always escapes: the
candidate names are pairwise distinct while the filesystem is finite, so some
candidate's joined path exists neither as a file nor as a directory. -/
def existsFreeCandidate (fs : FS) (dest name : List Char) :
    ∃ k, pathExists fs (joinP dest (candidate name k)) = false := by
  by_contra hc
  push_neg at hc
  have hmem : ∀ k, joinP dest (candidate name k) ∈ fs.files.map Prod.fst ++ fs.dirs := by
    intro k
    have h0 := hc k
    have h : pathExists fs (joinP dest (candidate name k)) = true := by
      cases hpe : pathExists fs (joinP dest (candidate name k))
      · exact absurd hpe h0
      · rfl
    rw [pathExists, Bool.or_eq_true] at h
    rcases h with h | h
    · exact List.mem_append_left _ (lookupFile_isSome_mem _ _ h)
    · exact List.mem_append_right _ (by simpa [FS.isDir] using h)
  have hinj : Function.Injective (fun k => joinP dest (candidate name k)) := by
    intro a b hab
    apply candidate_inj name
    have h2 := List.append_cancel_left (hab : dest ++ _ = dest ++ _)
    simpa using h2
  set L := fs.files.map Prod.fst ++ fs.dirs with hL
  have h1 : (Finset.range (L.length + 1)).image (fun k => joinP dest (candidate name k))
      ⊆ L.toFinset := by
    intro x hx
    rw [Finset.mem_image] at hx
    obtain ⟨k, _, rfl⟩ := hx
    exact List.mem_toFinset.mpr (hmem k)
  have h2 := Finset.card_le_card h1
  rw [Finset.card_image_of_injective _ hinj, Finset.card_range] at h2
  have h3 := List.toFinset_card_le (l := L)
  omega

/-- `get_unique_filename` (src/sorter.py lines 16-24): the loop starts from
the literal `file_name`, and while `os.path.exists` answers true moves on to
`f"{base_name}_{counter}{ext}"` with `counter` counting up from 1; it returns
the first candidate whose joined path does not exist, i.e. the candidate at
the least free index. -/
def get_unique_filename (fs : FS) (destination file_name : List Char) : List Char :=
  joinP destination (candidate file_name (Nat.find (existsFreeCandidate fs destination file_name)))

/-! ### `shutil.move` and `AutoSortHandler.move_file` / `on_created` -/

/-- Which path `shutil.move` takes for a regular file, chosen by the
environment (volume layout, free space, permissions): a same-volume
`os.rename`; a cross-volume copy that completes and is followed by
`os.unlink(src)`; a copy that raises after writing `written` bytes of the
destination (CPython's `shutil.move` does not remove the partial file); or a
copy whose destination could not even be opened. -/
inductive MoveBeh where
  | rename : MoveBeh
  | copy : MoveBeh
  | copyFail (written : Nat) : MoveBeh
  | copyOpenFail : MoveBeh
  deriving DecidableEq

/-- `shutil.move(src, dst)` for a regular file: the final filesystem and
whether an exception escaped.  A missing source makes `os.rename` raise
`OSError`, which `shutil.move` catches and answers by calling `copy2`, whose
`open(src, "rb")` then raises an uncaught `FileNotFoundError`: error with no
filesystem change.  A completed rename and a completed copy-then-unlink end
in the same state: the content is at `dst`, the source is gone (an existing
regular file at `dst` is silently replaced, POSIX `rename` semantics).  A
copy failing after `written` bytes leaves that prefix at `dst` and raises;
a copy that could not open `dst` leaves the filesystem unchanged and
raises.  In every failing case the source file is untouched. -/
def shutil_move (fs : FS) (src dst : List Char) (beh : MoveBeh) : FS × Bool :=
  match fs.file src with
  | none => (fs, true)
  | some c =>
    match beh with
    | MoveBeh.rename => (setFile (delFile fs src) dst c, false)
    | MoveBeh.copy => (delFile (setFile fs dst c) src, false)
    | MoveBeh.copyFail written => (setFile fs dst (c.take written), true)
    | MoveBeh.copyOpenFail => (fs, true)

/-- The spec's `MoveOutcome` taxonomy, used here as the model's name for the
branch `on_created`/`move_file` takes.  The Python code emits nothing in the
skip branches (its only output is the timeout `print` inside
`wait_for_download`; the spec's status sink is optional), so this value is
the classification of what happened, not an effect of the code. -/
inductive MoveOutcome where
  | moved (newPath : List Char) : MoveOutcome
  | skippedNoTag : MoveOutcome
  | skippedUnknownTag : MoveOutcome
  | skippedMissingDest : MoveOutcome
  | skippedTimeout : MoveOutcome
  | failed : MoveOutcome
  | ignoredDir : MoveOutcome
  | crashed : MoveOutcome
  deriving DecidableEq

/-- `AutoSortHandler.move_file` (src/sorter.py lines 78-85).  The destination
check and the unique-name resolution read the filesystem as it is when the
method starts (`fsResolve`); the `time.sleep(1)` before `shutil.move` opens a
race window in which the world may change, so the move itself runs against
`fsMove`.  For the race-free reading pass the same state twice. -/
def move_file (fsResolve fsMove : FS) (file_path destination_folder : List Char)
    (beh : MoveBeh) : FS × MoveOutcome :=
  if pathExists fsResolve destination_folder = false then
    (fsMove, MoveOutcome.skippedMissingDest)
  else
    match shutil_move fsMove file_path
        (get_unique_filename fsResolve destination_folder (basenameP file_path)) beh with
    | (fs2, false) =>
      (fs2, MoveOutcome.moved
        (get_unique_filename fsResolve destination_folder (basenameP file_path)))
    | (fs2, true) => (fs2, MoveOutcome.failed)

/-- The observation trace `wait_for_download` sees when nothing else touches
the filesystem during the wait: every poll answers according to `fs`, a
present file's size is its length and its `open` succeeds. -/
def obsOfFS (fs : FS) (p : List Char) : Nat → FileObs :=
  fun _ => ⟨(fs.file p).isSome, (fs.file p).map List.length, OpenRes.ok⟩

/-- Dictionary lookup in `self.sorting_rules` (tag to destination folder). -/
def lookupRule : List (List Char × List Char) → List Char → Option (List Char)
  | [], _ => none
  | (q, v) :: es, p => if q = p then some v else lookupRule es p

/-- `AutoSortHandler.on_created` (src/sorter.py lines 32-43) for one event,
with the filesystem unchanged by the environment while the event is
processed: directories are ignored; the stability wait runs with the default
`timeout=30, interval=1`; `tag and tag in self.sorting_rules` is the
two-step lookup (`extract_tag` never returns an empty string, so the
truthiness test is exactly `tag is not None`); on a hit,
`move_file(file_path, self.sorting_rules[tag])`. -/
def on_created (rules : List (List Char × List Char)) (fs : FS) (src_path : List Char)
    (is_directory : Bool) (beh : MoveBeh) : FS × MoveOutcome :=
  if is_directory then (fs, MoveOutcome.ignoredDir)
  else
    match wait_for_download (obsOfFS fs src_path) 30 1 with
    | Except.error _ => (fs, MoveOutcome.crashed)
    | Except.ok false => (fs, MoveOutcome.skippedTimeout)
    | Except.ok true =>
      match extract_tag (basenameP src_path) with
      | none => (fs, MoveOutcome.skippedNoTag)
      | some tag =>
        match lookupRule rules tag with
        | none => (fs, MoveOutcome.skippedUnknownTag)
        | some dest => move_file fs fs src_path dest beh

/-! ### Behavior of the stability loop -/

theorem waitAux_succ (obs : Nat → FileObs) (n k : Nat) (prev : Int) :
    waitAux obs (n + 1) k prev =
      if (obs k).present then
        match (obs k).sizeRead with
        | none => Except.error ()
        | some current =>
          if (current : Int) = prev then
            match (obs k).openRes with
            | OpenRes.ok => Except.ok true
            | OpenRes.permErr => waitAux obs n (k + 1) (current : Int)
            | OpenRes.goneErr => Except.error ()
          else waitAux obs n (k + 1) (current : Int)
      else waitAux obs n (k + 1) prev := rfl


theorem waitAux_step_absent (obs : Nat → FileObs) (n k : Nat) (prev : Int)
    (hp : (obs k).present = false) :
    waitAux obs (n + 1) k prev = waitAux obs n (k + 1) prev := by
  rw [waitAux_succ, hp]
  simp

theorem waitAux_step_err (obs : Nat → FileObs) (n k : Nat) (prev : Int)
    (hp : (obs k).present = true) (hs : (obs k).sizeRead = none) :
    waitAux obs (n + 1) k prev = Except.error () := by
  rw [waitAux_succ, hp, hs]
  simp

theorem waitAux_step_ok (obs : Nat → FileObs) (n k : Nat) (prev : Int) (current : Nat)
    (hp : (obs k).present = true) (hs : (obs k).sizeRead = some current)
    (hc : (current : Int) = prev) (ho : (obs k).openRes = OpenRes.ok) :
    waitAux obs (n + 1) k prev = Except.ok true := by
  rw [waitAux_succ, hp, hs, ho]
  simp [hc]

theorem waitAux_step_locked (obs : Nat → FileObs) (n k : Nat) (prev : Int) (current : Nat)
    (hp : (obs k).present = true) (hs : (obs k).sizeRead = some current)
    (hc : (current : Int) = prev) (ho : (obs k).openRes = OpenRes.permErr) :
    waitAux obs (n + 1) k prev = waitAux obs n (k + 1) (current : Int) := by
  rw [waitAux_succ, hp, hs, ho]
  simp [hc]

theorem waitAux_step_openErr (obs : Nat → FileObs) (n k : Nat) (prev : Int) (current : Nat)
    (hp : (obs k).present = true) (hs : (obs k).sizeRead = some current)
    (hc : (current : Int) = prev) (ho : (obs k).openRes = OpenRes.goneErr) :
    waitAux obs (n + 1) k prev = Except.error () := by
  rw [waitAux_succ, hp, hs, ho]
  simp [hc]

theorem waitAux_step_grow (obs : Nat → FileObs) (n k : Nat) (prev : Int) (current : Nat)
    (hp : (obs k).present = true) (hs : (obs k).sizeRead = some current)
    (hc : (current : Int) ≠ prev) :
    waitAux obs (n + 1) k prev = waitAux obs n (k + 1) (current : Int) := by
  rw [waitAux_succ, hp, hs]
  simp [hc]

theorem waitAux_shift (obs : Nat → FileObs) (n : Nat) :
    ∀ k prev, waitAux obs n (k + 1) prev = waitAux (fun i => obs (i + 1)) n k prev := by
  induction n with
  | zero => intro k prev; rfl
  | succ n ih =>
    intro k prev
    cases hp : (obs (k + 1)).present
    · rw [waitAux_step_absent obs n (k + 1) prev hp,
        waitAux_step_absent (fun i => obs (i + 1)) n k prev hp]
      exact ih (k + 1) prev
    · cases hs : (obs (k + 1)).sizeRead with
      | none =>
        rw [waitAux_step_err obs n (k + 1) prev hp hs,
          waitAux_step_err (fun i => obs (i + 1)) n k prev hp hs]
      | some current =>
        by_cases hc : (current : Int) = prev
        · cases ho : (obs (k + 1)).openRes
          · rw [waitAux_step_ok obs n (k + 1) prev current hp hs hc ho,
              waitAux_step_ok (fun i => obs (i + 1)) n k prev current hp hs hc ho]
          · rw [waitAux_step_locked obs n (k + 1) prev current hp hs hc ho,
              waitAux_step_locked (fun i => obs (i + 1)) n k prev current hp hs hc ho]
            exact ih (k + 1) current
          · rw [waitAux_step_openErr obs n (k + 1) prev current hp hs hc ho,
              waitAux_step_openErr (fun i => obs (i + 1)) n k prev current hp hs hc ho]
        · rw [waitAux_step_grow obs n (k + 1) prev current hp hs hc,
            waitAux_step_grow (fun i => obs (i + 1)) n k prev current hp hs hc]
          exact ih (k + 1) current

theorem waitAux_congr (obs obs' : Nat → FileObs) (n : Nat) :
    ∀ k prev, (∀ i, k ≤ i → i < k + n → obs i = obs' i) →
      waitAux obs n k prev = waitAux obs' n k prev := by
  induction n with
  | zero => intro k prev _; rfl
  | succ n ih =>
    intro k prev h
    have hk : obs k = obs' k := h k le_rfl (by omega)
    have hrec : ∀ p, waitAux obs n (k + 1) p = waitAux obs' n (k + 1) p :=
      fun p => ih (k + 1) p (fun i h1 h2 => h i (by omega) (by omega))
    cases hp : (obs k).present
    · rw [waitAux_step_absent obs n k prev hp,
        waitAux_step_absent obs' n k prev (hk ▸ hp)]
      exact hrec prev
    · cases hs : (obs k).sizeRead with
      | none =>
        rw [waitAux_step_err obs n k prev hp hs,
          waitAux_step_err obs' n k prev (hk ▸ hp) (hk ▸ hs)]
      | some current =>
        by_cases hc : (current : Int) = prev
        · cases ho : (obs k).openRes
          · rw [waitAux_step_ok obs n k prev current hp hs hc ho,
              waitAux_step_ok obs' n k prev current (hk ▸ hp) (hk ▸ hs) hc (hk ▸ ho)]
          · rw [waitAux_step_locked obs n k prev current hp hs hc ho,
              waitAux_step_locked obs' n k prev current (hk ▸ hp) (hk ▸ hs) hc (hk ▸ ho)]
            exact hrec current
          · rw [waitAux_step_openErr obs n k prev current hp hs hc ho,
              waitAux_step_openErr obs' n k prev current (hk ▸ hp) (hk ▸ hs) hc (hk ▸ ho)]
        · rw [waitAux_step_grow obs n k prev current hp hs hc,
            waitAux_step_grow obs' n k prev current (hk ▸ hp) (hk ▸ hs) hc]
          exact hrec current

theorem waitAux_absent (obs : Nat → FileObs) (n : Nat) :
    ∀ k prev, (∀ i, (obs i).present = false) →
      waitAux obs n k prev = Except.ok false := by
  induction n with
  | zero => intro k prev _; rfl
  | succ n ih =>
    intro k prev h
    rw [waitAux_step_absent obs n k prev (h k)]
    exact ih (k + 1) prev h

theorem waitAux_true_mono (obs : Nat → FileObs) (m : Nat) :
    ∀ n k prev, waitAux obs n k prev = Except.ok true →
      waitAux obs (n + m) k prev = Except.ok true := by
  intro n
  induction n with
  | zero => intro k prev h; simp [waitAux] at h
  | succ n ih =>
    intro k prev h
    rw [show n + 1 + m = (n + m) + 1 by omega]
    cases hp : (obs k).present
    · rw [waitAux_step_absent obs n k prev hp] at h
      rw [waitAux_step_absent obs (n + m) k prev hp]
      exact ih (k + 1) prev h
    · cases hs : (obs k).sizeRead with
      | none =>
        rw [waitAux_step_err obs n k prev hp hs] at h
        exact absurd h (by simp)
      | some current =>
        by_cases hc : (current : Int) = prev
        · cases ho : (obs k).openRes
          · exact waitAux_step_ok obs (n + m) k prev current hp hs hc ho
          · rw [waitAux_step_locked obs n k prev current hp hs hc ho] at h
            rw [waitAux_step_locked obs (n + m) k prev current hp hs hc ho]
            exact ih (k + 1) current h
          · rw [waitAux_step_openErr obs n k prev current hp hs hc ho] at h
            exact absurd h (by simp)
        · rw [waitAux_step_grow obs n k prev current hp hs hc] at h
          rw [waitAux_step_grow obs (n + m) k prev current hp hs hc]
          exact ih (k + 1) current h

theorem waitAux_no_error (obs : Nat → FileObs) :
    ∀ n k prev, (∀ i, k ≤ i → i < k + n → (obs i).present = true →
        ((obs i).sizeRead).isSome = true ∧ (obs i).openRes ≠ OpenRes.goneErr) →
      ∃ b, waitAux obs n k prev = Except.ok b := by
  intro n
  induction n with
  | zero => intro k prev _; exact ⟨false, rfl⟩
  | succ n ih =>
    intro k prev h
    have hrec : ∀ p, ∃ b, waitAux obs n (k + 1) p = Except.ok b :=
      fun p => ih (k + 1) p (fun i h1 h2 h3 => h i (by omega) (by omega) h3)
    cases hp : (obs k).present
    · rw [waitAux_step_absent obs n k prev hp]
      exact hrec prev
    · cases hs : (obs k).sizeRead with
      | none =>
        obtain ⟨h1, _⟩ := h k le_rfl (by omega) hp
        rw [hs] at h1
        simp at h1
      | some current =>
        by_cases hc : (current : Int) = prev
        · cases ho : (obs k).openRes
          · exact ⟨true, waitAux_step_ok obs n k prev current hp hs hc ho⟩
          · rw [waitAux_step_locked obs n k prev current hp hs hc ho]
            exact hrec current
          · obtain ⟨_, h2⟩ := h k le_rfl (by omega) hp
            exact absurd ho h2
        · rw [waitAux_step_grow obs n k prev current hp hs hc]
          exact hrec current

theorem waitAux_error_at (obs : Nat → FileObs) :
    ∀ m n k prev, m < n → (∀ j, k ≤ j → j < k + m → (obs j).present = false) →
      (obs (k + m)).present = true → (obs (k + m)).sizeRead = none →
      waitAux obs n k prev = Except.error () := by
  intro m
  induction m with
  | zero =>
    intro n k prev hn habs hp hs
    obtain ⟨n2, rfl⟩ : ∃ n2, n = n2 + 1 := ⟨n - 1, by omega⟩
    rw [Nat.add_zero] at hp hs
    exact waitAux_step_err obs n2 k prev hp hs
  | succ m ih =>
    intro n k prev hn habs hp hs
    obtain ⟨n2, rfl⟩ : ∃ n2, n = n2 + 1 := ⟨n - 1, by omega⟩
    rw [waitAux_step_absent obs n2 k prev (habs k le_rfl (by omega))]
    have heq : k + 1 + m = k + (m + 1) := by omega
    exact ih n2 (k + 1) prev (by omega)
      (fun j h1 h2 => habs j (by omega) (by omega)) (heq ▸ hp) (heq ▸ hs)

theorem waitAux_true_samples (obs : Nat → FileObs) :
    ∀ n k prev, waitAux obs n k prev = Except.ok true →
      (∃ j j', k ≤ j ∧ j < j' ∧ (obs j).present = true ∧ (obs j').present = true ∧
        (obs j).sizeRead = (obs j').sizeRead ∧
        ∀ i, j < i → i < j' → (obs i).present = false)
      ∨ (∃ j' s, k ≤ j' ∧ (obs j').present = true ∧ (obs j').sizeRead = some s ∧
          (s : Int) = prev ∧ ∀ i, k ≤ i → i < j' → (obs i).present = false) := by
  intro n
  induction n with
  | zero => intro k prev h; simp [waitAux] at h
  | succ n ih =>
    intro k prev h
    cases hp : (obs k).present
    · rw [waitAux_step_absent obs n k prev hp] at h
      rcases ih (k + 1) prev h with h1 | h2
      · obtain ⟨j, j', a1, a2, a3, a4, a5, a6⟩ := h1
        exact Or.inl ⟨j, j', by omega, a2, a3, a4, a5, a6⟩
      · obtain ⟨j', s, a1, a2, a3, a4, a5⟩ := h2
        refine Or.inr ⟨j', s, by omega, a2, a3, a4, fun i h1 h2 => ?_⟩
        rcases Nat.eq_or_lt_of_le h1 with rfl | hlt
        · exact hp
        · exact a5 i (by omega) h2
    · cases hs : (obs k).sizeRead with
      | none =>
        rw [waitAux_step_err obs n k prev hp hs] at h
        exact absurd h (by simp)
      | some current =>
        by_cases hc : (current : Int) = prev
        · cases ho : (obs k).openRes
          · exact Or.inr ⟨k, current, le_rfl, hp, hs, hc, fun i h1 h2 => by omega⟩
          · rw [waitAux_step_locked obs n k prev current hp hs hc ho] at h
            rcases ih (k + 1) current h with h1 | h2
            · obtain ⟨j, j', a1, a2, a3, a4, a5, a6⟩ := h1
              exact Or.inl ⟨j, j', by omega, a2, a3, a4, a5, a6⟩
            · obtain ⟨j', s, a1, a2, a3, a4, a5⟩ := h2
              have hsc : s = current := by exact_mod_cast a4
              refine Or.inl ⟨k, j', le_rfl, by omega, hp, a2, ?_, fun i h1 h2 =>
                a5 i (by omega) h2⟩
              rw [hs, a3, hsc]
          · rw [waitAux_step_openErr obs n k prev current hp hs hc ho] at h
            exact absurd h (by simp)
        · rw [waitAux_step_grow obs n k prev current hp hs hc] at h
          rcases ih (k + 1) current h with h1 | h2
          · obtain ⟨j, j', a1, a2, a3, a4, a5, a6⟩ := h1
            exact Or.inl ⟨j, j', by omega, a2, a3, a4, a5, a6⟩
          · obtain ⟨j', s, a1, a2, a3, a4, a5⟩ := h2
            have hsc : s = current := by exact_mod_cast a4
            refine Or.inl ⟨k, j', le_rfl, by omega, hp, a2, ?_, fun i h1 h2 =>
              a5 i (by omega) h2⟩
            rw [hs, a3, hsc]

theorem waitAux_growth (N : Nat) :
    ∀ (f : Nat → Nat) (prev : Int),
      (∀ k, k < N → f k < f (k + 1)) → (∀ k, N ≤ k → f k = f N) →
      prev ≠ (f 0 : Int) →
      waitAux (fun k => ⟨true, some (f k), OpenRes.ok⟩) (N + 2) 0 prev = Except.ok true ∧
      waitAux (fun k => ⟨true, some (f k), OpenRes.ok⟩) (N + 1) 0 prev = Except.ok false := by
  induction N with
  | zero =>
    intro f prev _ hconst hprev
    have h1 : waitAux (fun k => ⟨true, some (f k), OpenRes.ok⟩) 2 0 prev
        = waitAux (fun k => ⟨true, some (f k), OpenRes.ok⟩) 1 1 (f 0) :=
      waitAux_step_grow _ 1 0 prev (f 0) rfl rfl (fun e => hprev e.symm)
    refine ⟨?_, ?_⟩
    · rw [h1]
      exact waitAux_step_ok _ 0 1 (f 0) (f 1) rfl rfl (by rw [hconst 1 (by omega)]) rfl
    · rw [waitAux_step_grow _ 0 0 prev (f 0) rfl rfl (fun e => hprev e.symm)]
      rfl
  | succ N ih =>
    intro f prev hgrow hconst hprev
    have step : ∀ fuel, waitAux (fun k => ⟨true, some (f k), OpenRes.ok⟩) (fuel + 1) 0 prev
        = waitAux (fun k => ⟨true, some (f (k + 1)), OpenRes.ok⟩) fuel 0 ((f 0 : Nat) : Int) := by
      intro fuel
      rw [waitAux_step_grow _ fuel 0 prev (f 0) rfl rfl (fun e => hprev e.symm)]
      exact waitAux_shift _ fuel 0 ((f 0 : Nat) : Int)
    have hgrow2 : ∀ k, k < N → f (k + 1) < f (k + 1 + 1) := fun k hk => hgrow (k + 1) (by omega)
    have hconst2 : ∀ k, N ≤ k → f (k + 1) = f (N + 1) := fun k hk => hconst (k + 1) (by omega)
    have hprev2 : ((f 0 : Nat) : Int) ≠ ((f 1 : Nat) : Int) := by
      have hg : f 0 < f 1 := hgrow 0 (by omega)
      intro e
      have he : f 0 = f 1 := by exact_mod_cast e
      omega
    obtain ⟨ha, hb⟩ := ih (fun k => f (k + 1)) ((f 0 : Nat) : Int) hgrow2 hconst2 hprev2
    refine ⟨?_, ?_⟩
    · rw [show N + 1 + 2 = (N + 2) + 1 by omega, step (N + 2)]
      exact ha
    · rw [show N + 1 + 1 = (N + 1) + 1 by omega, step (N + 1)]
      exact hb

theorem waitAux_const_ok (s : Nat) (n : Nat) :
    waitAux (fun _ => ⟨true, some s, OpenRes.ok⟩) (n + 2) 0 (-1) = Except.ok true := by
  have h := (waitAux_growth 0 (fun _ => s) (-1) (by omega) (fun _ _ => rfl)
    (by intro e; simp at e)).1
  have h2 := waitAux_true_mono _ n 2 0 (-1) h
  rwa [show 2 + n = n + 2 by omega] at h2

theorem wait_stable_of_present (fs : FS) (p : List Char) (c : List Nat)
    (h : fs.file p = some c) : wait_for_download (obsOfFS fs p) 30 1 = Except.ok true := by
  rw [wait_for_download]
  have hobs : obsOfFS fs p = fun _ => ⟨true, some c.length, OpenRes.ok⟩ := by
    funext i
    rw [obsOfFS, h]
    rfl
  rw [hobs]
  exact waitAux_const_ok c.length 28

theorem wait_absent_fs (fs : FS) (p : List Char) (h : fs.file p = none) :
    wait_for_download (obsOfFS fs p) 30 1 = Except.ok false := by
  rw [wait_for_download]
  apply waitAux_absent
  intro i
  rw [obsOfFS, h]
  rfl

/-! ### Lookup facts about the filesystem model -/

theorem lookupFile_drop_self (es : List (List Char × List Nat)) (p : List Char) :
    lookupFile (dropFile es p) p = none := by
  induction es with
  | nil => rfl
  | cons e es ih =>
    obtain ⟨q, c⟩ := e
    rw [dropFile]
    by_cases hq : q = p
    · rw [if_pos hq]
      exact ih
    · rw [if_neg hq, lookupFile, if_neg hq]
      exact ih

theorem lookupFile_drop_ne (es : List (List Char × List Nat)) (p q : List Char)
    (h : q ≠ p) : lookupFile (dropFile es p) q = lookupFile es q := by
  induction es with
  | nil => rfl
  | cons e es ih =>
    obtain ⟨r, c⟩ := e
    rw [dropFile, lookupFile]
    by_cases hr : r = p
    · rw [if_pos hr, if_neg (by rw [hr]; exact fun e => h e.symm)]
      exact ih
    · rw [if_neg hr, lookupFile]
      by_cases hrq : r = q
      · rw [if_pos hrq, if_pos hrq]
      · rw [if_neg hrq, if_neg hrq]
        exact ih

theorem file_setFile_self (fs : FS) (p : List Char) (c : List Nat) :
    (setFile fs p c).file p = some c := by
  rw [setFile, FS.file, lookupFile, if_pos rfl]

theorem file_setFile_ne (fs : FS) (p : List Char) (c : List Nat) (q : List Char)
    (h : q ≠ p) : (setFile fs p c).file q = fs.file q := by
  rw [setFile, FS.file, lookupFile, if_neg (fun e => h e.symm)]
  exact lookupFile_drop_ne fs.files p q h

theorem file_delFile_self (fs : FS) (p : List Char) : (delFile fs p).file p = none :=
  lookupFile_drop_self fs.files p

theorem file_delFile_ne (fs : FS) (p q : List Char) (h : q ≠ p) :
    (delFile fs p).file q = fs.file q :=
  lookupFile_drop_ne fs.files p q h

/-! ### Characterization of the tag extractor -/

theorem tagBody_append (body post : List Char) (h2 : ']' ∉ body) (h3 : '\n' ∉ body) :
    tagBody (body ++ ']' :: post) = some body := by
  induction body with
  | nil => rw [List.nil_append, tagBody, if_pos rfl]
  | cons c b ih =>
    have hb : ¬c = ']' := by intro e; subst e; simp at h2
    have hn : ¬c = '\n' := by intro e; subst e; simp at h3
    rw [List.cons_append, tagBody, if_neg hb, if_neg hn,
      ih (fun m => h2 (List.mem_cons_of_mem _ m)) (fun m => h3 (List.mem_cons_of_mem _ m))]
    rfl

theorem tagBody_some_shape (rest body : List Char) (h : tagBody rest = some body) :
    ∃ post, rest = body ++ ']' :: post ∧ ']' ∉ body ∧ '\n' ∉ body := by
  induction rest generalizing body with
  | nil => simp [tagBody] at h
  | cons c cs ih =>
    rw [tagBody] at h
    by_cases hb : c = ']'
    · rw [if_pos hb] at h
      simp only [Option.some.injEq] at h
      exact ⟨cs, by rw [hb, ← h, List.nil_append], by rw [← h]; simp, by rw [← h]; simp⟩
    · rw [if_neg hb] at h
      by_cases hn : c = '\n'
      · rw [if_pos hn] at h
        simp at h
      · rw [if_neg hn] at h
        obtain ⟨b2, hb2, rfl⟩ : ∃ b2, tagBody cs = some b2 ∧ body = c :: b2 := by
          cases ht : tagBody cs with
          | none => rw [ht] at h; simp at h
          | some b2 =>
            rw [ht] at h
            simp only [Option.map_some', Option.some.injEq] at h
            exact ⟨b2, rfl, h.symm⟩
        obtain ⟨post, h1, h2, h3⟩ := ih b2 hb2
        refine ⟨post, by rw [h1, List.cons_append], ?_, ?_⟩
        · simp only [List.mem_cons, not_or]
          exact ⟨fun e => hb e.symm, h2⟩
        · simp only [List.mem_cons, not_or]
          exact ⟨fun e => hn e.symm, h3⟩

theorem extract_tag_eq_some (name t : List Char) :
    extract_tag name = some t ↔
      ∃ pre post, name = '[' :: (pre ++ ']' :: post) ∧ ']' ∉ pre ∧ '\n' ∉ pre ∧
        t = (('[' :: pre) ++ [']']).map Char.toLower := by
  constructor
  · intro h
    cases name with
    | nil => simp [extract_tag] at h
    | cons c rest =>
      rw [extract_tag] at h
      by_cases hc : c = '['
      · rw [if_pos hc] at h
        obtain ⟨body, hb, ht⟩ : ∃ body, tagBody rest = some body ∧
            t = (('[' :: body) ++ [']']).map Char.toLower := by
          cases htb : tagBody rest with
          | none => rw [htb] at h; simp at h
          | some body =>
            rw [htb] at h
            simp only [Option.map_some', Option.some.injEq] at h
            exact ⟨body, rfl, h.symm⟩
        obtain ⟨post, h1, h2, h3⟩ := tagBody_some_shape rest body hb
        exact ⟨body, post, by rw [hc, h1], h2, h3, ht⟩
      · rw [if_neg hc] at h
        simp at h
  · rintro ⟨pre, post, rfl, h2, h3, rfl⟩
    rw [extract_tag, if_pos rfl, tagBody_append pre post h2 h3]
    rfl

/-! ### Branch facts about `splitext` and the digit evaluations -/

theorem splitext_mid (pre suf : List Char) (h1 : '.' ∉ suf) (h2 : ∃ c ∈ pre, c ≠ '.') :
    splitext (pre ++ '.' :: suf) = (pre, '.' :: suf) := by
  rw [splitext, lastDotSplit_some pre suf h1]
  have hany : pre.any (fun c => c != '.') = true := by
    rw [List.any_eq_true]
    obtain ⟨c, hm, hc⟩ := h2
    exact ⟨c, hm, by simpa using hc⟩
  simp [hany]

theorem splitext_allDot (pre suf : List Char) (h1 : '.' ∉ suf) (h2 : ∀ c ∈ pre, c = '.') :
    splitext (pre ++ '.' :: suf) = (pre ++ '.' :: suf, []) := by
  rw [splitext, lastDotSplit_some pre suf h1]
  have hany : pre.any (fun c => c != '.') = false := by
    rw [List.any_eq_false]
    intro c hm
    simpa using h2 c hm
  simp [hany]

theorem splitext_noDot (name : List Char) (h : '.' ∉ name) : splitext name = (name, []) := by
  rw [splitext, (lastDotSplit_none name).mpr h]

theorem natDigits_one : natDigits 1 = ['1'] := by rw [natDigits]; rfl

theorem natDigits_two : natDigits 2 = ['2'] := by rw [natDigits]; rfl

/-! ### Branch facts about `shutil_move`, `move_file` and `on_created` -/

theorem shutil_move_missing (fs : FS) (src dst : List Char) (beh : MoveBeh)
    (h : fs.file src = none) : shutil_move fs src dst beh = (fs, true) := by
  rw [shutil_move, h]

theorem shutil_move_rename (fs : FS) (src dst : List Char) (c : List Nat)
    (h : fs.file src = some c) :
    shutil_move fs src dst MoveBeh.rename = (setFile (delFile fs src) dst c, false) := by
  rw [shutil_move, h]

theorem shutil_move_copy (fs : FS) (src dst : List Char) (c : List Nat)
    (h : fs.file src = some c) :
    shutil_move fs src dst MoveBeh.copy = (delFile (setFile fs dst c) src, false) := by
  rw [shutil_move, h]

theorem shutil_move_copyFail (fs : FS) (src dst : List Char) (c : List Nat) (w : Nat)
    (h : fs.file src = some c) :
    shutil_move fs src dst (MoveBeh.copyFail w) = (setFile fs dst (c.take w), true) := by
  rw [shutil_move, h]

theorem shutil_move_copyOpenFail (fs : FS) (src dst : List Char) (c : List Nat)
    (h : fs.file src = some c) :
    shutil_move fs src dst MoveBeh.copyOpenFail = (fs, true) := by
  rw [shutil_move, h]

theorem move_file_missingDest (fsR fsM : FS) (src dest : List Char) (beh : MoveBeh)
    (h : pathExists fsR dest = false) :
    move_file fsR fsM src dest beh = (fsM, MoveOutcome.skippedMissingDest) := by
  rw [move_file, if_pos h]

theorem move_file_renamed (fsR fsM : FS) (src dest : List Char) (c : List Nat)
    (h : pathExists fsR dest = true) (hs : fsM.file src = some c) :
    move_file fsR fsM src dest MoveBeh.rename =
      (setFile (delFile fsM src) (get_unique_filename fsR dest (basenameP src)) c,
        MoveOutcome.moved (get_unique_filename fsR dest (basenameP src))) := by
  rw [move_file, if_neg (by rw [h]; simp), shutil_move_rename fsM src _ c hs]

theorem on_created_absent (rules : List (List Char × List Char)) (fs : FS)
    (src : List Char) (beh : MoveBeh) (h : fs.file src = none) :
    on_created rules fs src false beh = (fs, MoveOutcome.skippedTimeout) := by
  rw [on_created]
  simp only [Bool.false_eq_true, if_false]
  rw [wait_absent_fs fs src h]

theorem on_created_noTag (rules : List (List Char × List Char)) (fs : FS)
    (src : List Char) (beh : MoveBeh) (c : List Nat) (hc : fs.file src = some c)
    (ht : extract_tag (basenameP src) = none) :
    on_created rules fs src false beh = (fs, MoveOutcome.skippedNoTag) := by
  rw [on_created]
  simp only [Bool.false_eq_true, if_false]
  rw [wait_stable_of_present fs src c hc, ht]

theorem on_created_unknownTag (rules : List (List Char × List Char)) (fs : FS)
    (src : List Char) (beh : MoveBeh) (c : List Nat) (tag : List Char)
    (hc : fs.file src = some c) (ht : extract_tag (basenameP src) = some tag)
    (hr : lookupRule rules tag = none) :
    on_created rules fs src false beh = (fs, MoveOutcome.skippedUnknownTag) := by
  simp only [on_created, Bool.false_eq_true, if_false,
    wait_stable_of_present fs src c hc, ht, hr]

theorem on_created_hit (rules : List (List Char × List Char)) (fs : FS)
    (src : List Char) (beh : MoveBeh) (c : List Nat) (tag dest : List Char)
    (hc : fs.file src = some c) (ht : extract_tag (basenameP src) = some tag)
    (hr : lookupRule rules tag = some dest) :
    on_created rules fs src false beh = move_file fs fs src dest beh := by
  simp only [on_created, Bool.false_eq_true, if_false,
    wait_stable_of_present fs src c hc, ht, hr]

theorem iterCount_one (timeout : Nat) : iterCount timeout 1 = timeout := by
  rw [iterCount, Nat.add_sub_cancel, Nat.div_one]

/-! ### The claims -/

/-- C1, counterexample to the claim as stated: the file name `"[\n]"` starts
with `[` at position 0 and has a closing `]`, so the claim requires the tag
`some "[\n]"`; but `re.match` with the default flags gives `.` no newline,
so `extract_tag` returns `none` (no tag) on this name. -/
theorem C1_counterexample :
    extract_tag ('[' :: '\n' :: ']' :: []) = none ∧
    extract_tag ('[' :: '\n' :: ']' :: []) ≠
      some ((('[' :: ['\n']) ++ [']']).map Char.toLower) := by
  decide

/-- C1, amended: `extract_tag` returns `some t` exactly when the name starts
with a literal `[` at position 0 followed by characters up to a first `]`
with no newline among them, and then `t` is that bracketed substring
(brackets included) lower-cased; it returns `none` for the empty name, for
any name not starting with `[` (brackets appearing later never match), and
for a name starting with `[` but containing no `]` in the rest. -/
theorem C1_extract_tag_characterization :
    (∀ name t, extract_tag name = some t ↔
      ∃ pre post, name = '[' :: (pre ++ ']' :: post) ∧ ']' ∉ pre ∧ '\n' ∉ pre ∧
        t = (('[' :: pre) ++ [']']).map Char.toLower) ∧
    extract_tag [] = none ∧
    (∀ (c : Char) (rest : List Char), c ≠ '[' → extract_tag (c :: rest) = none) ∧
    (∀ rest : List Char, ']' ∉ rest → extract_tag ('[' :: rest) = none) := by
  refine ⟨extract_tag_eq_some, rfl, fun c rest hc => ?_, fun rest hb => ?_⟩
  · rw [extract_tag, if_neg hc]
  · cases htb : tagBody rest with
    | none => rw [extract_tag, if_pos rfl, htb]; rfl
    | some body =>
      exfalso
      obtain ⟨post, h1, _, _⟩ := tagBody_some_shape rest body htb
      exact hb (by rw [h1]; exact List.mem_append_right _ (List.mem_cons_self _ _))

/-- C1, witness: the characterization evaluated on concrete names: a tagged
name is lower-cased with its brackets, an untagged name and an unclosed
bracket give no tag. -/
theorem C1_witness :
    extract_tag ("[Invoice] march.pdf".toList) = some ("[invoice]".toList) ∧
    extract_tag ("report.pdf".toList) = none ∧
    extract_tag ("[broken".toList) = none := by
  refine ⟨?_, ?_, ?_⟩
  · exact (C1_extract_tag_characterization.1 _ _).mpr
      ⟨"Invoice".toList, " march.pdf".toList, by decide, by decide, by decide, by decide⟩
  · exact C1_extract_tag_characterization.2.2.1 'r' ("eport.pdf".toList) (by decide)
  · exact C1_extract_tag_characterization.2.2.2 ("broken".toList) (by decide)

/-- C2: the stability check never declares a file stable on its very first
size sample: a `True` answer requires two consecutive present polls with
equal size reads (part 1); a file whose size is constant from the first
observation is declared stable within 2 polling intervals, also for size 0
(part 2, universally quantified over the constant size); a file that grows
for `N` intervals and then stops growing is declared stable at poll `N + 2`
and not within `N + 1` polls (part 3). -/
theorem C2_two_sample_stability :
    (∀ (obs : Nat → FileObs) (timeout interval : Nat),
      wait_for_download obs timeout interval = Except.ok true →
      ∃ j j', j < j' ∧ (obs j).present = true ∧ (obs j').present = true ∧
        (obs j).sizeRead = (obs j').sizeRead ∧
        ∀ i, j < i → i < j' → (obs i).present = false) ∧
    (∀ s : Nat,
      wait_for_download (fun _ => ⟨true, some s, OpenRes.ok⟩) 2 1 = Except.ok true) ∧
    (∀ (N : Nat) (f : Nat → Nat),
      (∀ k, k < N → f k < f (k + 1)) → (∀ k, N ≤ k → f k = f N) →
      wait_for_download (fun k => ⟨true, some (f k), OpenRes.ok⟩) (N + 2) 1
          = Except.ok true ∧
      wait_for_download (fun k => ⟨true, some (f k), OpenRes.ok⟩) (N + 1) 1
          = Except.ok false) := by
  refine ⟨?_, ?_, ?_⟩
  · intro obs timeout interval h
    rw [wait_for_download] at h
    rcases waitAux_true_samples obs _ 0 (-1) h with h1 | h2
    · obtain ⟨j, j', _, a2, a3, a4, a5, a6⟩ := h1
      exact ⟨j, j', a2, a3, a4, a5, a6⟩
    · obtain ⟨j', s, _, _, _, a4, _⟩ := h2
      have hge := Int.natCast_nonneg s
      omega
  · intro s
    exact waitAux_const_ok s 0
  · intro N f hg hc
    have hi1 : iterCount (N + 2) 1 = N + 2 := by
      rw [iterCount, Nat.add_sub_cancel, Nat.div_one]
    have hi2 : iterCount (N + 1) 1 = N + 1 := by
      rw [iterCount, Nat.add_sub_cancel, Nat.div_one]
    rw [wait_for_download, wait_for_download, hi1, hi2]
    refine waitAux_growth N f (-1) hg hc ?_
    have hge := Int.natCast_nonneg (f 0)
    omega

/-- C2, witness: the theorem applied to concrete traces: a constant-size
trace of size 5 stable within 2 polls yields two consecutive equal samples;
size 0 is stable within 2 polls; sizes 0,1,2,2,2,… (growing for 2 intervals)
are stable at poll 4 and not within 3 polls. -/
theorem C2_witness :
    (∃ j j', j < j' ∧
      ((fun (_ : Nat) => (⟨true, some 5, OpenRes.ok⟩ : FileObs)) j).present = true ∧
      ((fun (_ : Nat) => (⟨true, some 5, OpenRes.ok⟩ : FileObs)) j').present = true ∧
      ((fun (_ : Nat) => (⟨true, some 5, OpenRes.ok⟩ : FileObs)) j).sizeRead
        = ((fun (_ : Nat) => (⟨true, some 5, OpenRes.ok⟩ : FileObs)) j').sizeRead ∧
      ∀ i, j < i → i < j' →
        ((fun (_ : Nat) => (⟨true, some 5, OpenRes.ok⟩ : FileObs)) i).present = false) ∧
    wait_for_download (fun _ => ⟨true, some 0, OpenRes.ok⟩) 2 1 = Except.ok true ∧
    wait_for_download (fun k => ⟨true, some (min k 2), OpenRes.ok⟩) 4 1
        = Except.ok true ∧
    wait_for_download (fun k => ⟨true, some (min k 2), OpenRes.ok⟩) 3 1
        = Except.ok false := by
  refine ⟨C2_two_sample_stability.1 _ 2 1 rfl, C2_two_sample_stability.2.1 0, ?_⟩
  have h := C2_two_sample_stability.2.2 2 (fun k => min k 2) (by decide)
    (fun k hk => by simp [Nat.min_def]; omega)
  exact ⟨h.1, h.2⟩

/-- C3: `get_unique_filename` returns a path inside the destination that does
not currently exist, trying the literal name first (`candidate … 0`) and then
`base_1.ext`, `base_2.ext`, … in order, returning the candidate at the first
free counter (every smaller counter's candidate is occupied; the counter has
no upper bound, `existsFreeCandidate` merely proves the loop escapes).  With
`report.txt` and `report_1.txt` already present, resolving `report.txt`
yields `report_2.txt`. -/
theorem C3_unique_filename_spec :
    (∀ (fs : FS) (dest name : List Char),
      pathExists fs (get_unique_filename fs dest name) = false ∧
      ∃ k, get_unique_filename fs dest name = joinP dest (candidate name k) ∧
        ∀ j, j < k → pathExists fs (joinP dest (candidate name j)) = true) ∧
    get_unique_filename
        ⟨[], [("/dest/report.txt".toList, [0]), ("/dest/report_1.txt".toList, [1])]⟩
        ("/dest".toList) ("report.txt".toList)
      = "/dest/report_2.txt".toList := by
  constructor
  · intro fs dest name
    constructor
    · exact Nat.find_spec (existsFreeCandidate fs dest name)
    · refine ⟨Nat.find (existsFreeCandidate fs dest name), rfl, fun j hj => ?_⟩
      have hmin := Nat.find_min (existsFreeCandidate fs dest name) hj
      cases hpe : pathExists fs (joinP dest (candidate name j))
      · exact absurd hpe hmin
      · rfl
  · have hc1 : candidate ("report.txt".toList) 1 = "report_1.txt".toList := by
      rw [candidate, if_neg (by decide), natDigits_one]
      decide
    have hc2 : candidate ("report.txt".toList) 2 = "report_2.txt".toList := by
      rw [candidate, if_neg (by decide), natDigits_two]
      decide
    rw [get_unique_filename]
    have hfind : Nat.find (existsFreeCandidate
        ⟨[], [("/dest/report.txt".toList, [0]), ("/dest/report_1.txt".toList, [1])]⟩
        ("/dest".toList) ("report.txt".toList)) = 2 := by
      rw [Nat.find_eq_iff]
      refine ⟨by rw [hc2]; decide, ?_⟩
      intro n hn
      interval_cases n
      · decide
      · rw [hc1]; decide
    rw [hfind, hc2]
    decide

/-- C3, witness: the general part of the theorem evaluated at the concrete
example filesystem: the returned path does not exist there. -/
theorem C3_witness :
    pathExists
      ⟨[], [("/dest/report.txt".toList, [0]), ("/dest/report_1.txt".toList, [1])]⟩
      (get_unique_filename
        ⟨[], [("/dest/report.txt".toList, [0]), ("/dest/report_1.txt".toList, [1])]⟩
        ("/dest".toList) ("report.txt".toList)) = false :=
  (C3_unique_filename_spec.1 _ _ _).1

/-- C4: for a creation event whose file is present (hence declared stable by
the wait), each of the three skip cases — no tag in the name, a tag matching
no rule, or a matched rule whose destination does not exist at move time —
performs no move: the filesystem is returned unchanged and the branch taken
is the corresponding Skipped classification (the code itself is silent in
these branches; the spec's status sink is optional). -/
theorem C4_skip_leaves_file_in_place :
    ∀ (rules : List (List Char × List Char)) (fs : FS) (src : List Char)
      (c : List Nat) (beh : MoveBeh), fs.file src = some c →
      ((extract_tag (basenameP src) = none →
        on_created rules fs src false beh = (fs, MoveOutcome.skippedNoTag)) ∧
      (∀ tag, extract_tag (basenameP src) = some tag → lookupRule rules tag = none →
        on_created rules fs src false beh = (fs, MoveOutcome.skippedUnknownTag)) ∧
      (∀ tag dest, extract_tag (basenameP src) = some tag →
        lookupRule rules tag = some dest → pathExists fs dest = false →
        on_created rules fs src false beh = (fs, MoveOutcome.skippedMissingDest))) := by
  intro rules fs src c beh h
  refine ⟨fun ht => on_created_noTag rules fs src beh c h ht,
    fun tag ht hr => on_created_unknownTag rules fs src beh c tag h ht hr,
    fun tag dest ht hr hd => ?_⟩
  rw [on_created_hit rules fs src beh c tag dest h ht hr,
    move_file_missingDest fs fs src dest beh hd]

/-- C4, witness: the three skip cases on concrete events: an untagged name,
a `[b]` tag with no rule, and an `[a]` tag whose destination directory does
not exist; each leaves the (concrete) filesystem unchanged. -/
theorem C4_witness :
    on_created [("[a]".toList, "/dest".toList)] ⟨[], [("/w/plain.txt".toList, [1])]⟩
        ("/w/plain.txt".toList) false MoveBeh.rename
      = (⟨[], [("/w/plain.txt".toList, [1])]⟩, MoveOutcome.skippedNoTag) ∧
    on_created [("[a]".toList, "/dest".toList)] ⟨[], [("/w/[b] x.txt".toList, [2])]⟩
        ("/w/[b] x.txt".toList) false MoveBeh.rename
      = (⟨[], [("/w/[b] x.txt".toList, [2])]⟩, MoveOutcome.skippedUnknownTag) ∧
    on_created [("[a]".toList, "/dest".toList)] ⟨[], [("/w/[a] x.txt".toList, [3])]⟩
        ("/w/[a] x.txt".toList) false MoveBeh.rename
      = (⟨[], [("/w/[a] x.txt".toList, [3])]⟩, MoveOutcome.skippedMissingDest) := by
  refine ⟨(C4_skip_leaves_file_in_place _ _ _ [1] _ (by decide)).1 (by decide),
    (C4_skip_leaves_file_in_place _ _ _ [2] _ (by decide)).2.1
      ("[b]".toList) (by decide) (by decide),
    (C4_skip_leaves_file_in_place _ _ _ [3] _ (by decide)).2.2
      ("[a]".toList) ("/dest".toList) (by decide) (by decide) (by decide)⟩

/-- C5, counterexample to the claim as stated: a behavior of the observed
file in which the path exists at the first poll but vanishes before the
`os.path.getsize` call (the size read fails).  The stability check then
reports neither stable nor the timeout outcome: it terminates by raising the
uncaught `OSError` out of `wait_for_download`. -/
theorem C5_counterexample :
    wait_for_download (fun _ => ⟨true, none, OpenRes.ok⟩) 30 1 = Except.error () := rfl

/-- C5, amended: the stability check always terminates and consults at most
`⌈timeout/interval⌉` polls (the result depends only on the observations
below that bound — 30 polls at the defaults).  When every size read at a
present poll succeeds and no attempted `open` raises a non-Permission
error, it either reports stable (`ok true`) or reports the unstable/timeout
outcome (`ok false`, with the path logged by the code) exactly once, as its
single return value.  A failing size read — and likewise an `open` that
raises a non-Permission `OSError` at the poll where stability would be
declared — instead terminates the check by raising. -/
theorem C5_terminates_bounded :
    (∀ (obs obs2 : Nat → FileObs) (timeout interval : Nat),
      (∀ k, k < iterCount timeout interval → obs k = obs2 k) →
      wait_for_download obs timeout interval = wait_for_download obs2 timeout interval) ∧
    (∀ (obs : Nat → FileObs) (timeout interval : Nat),
      (∀ k, k < iterCount timeout interval → (obs k).present = true →
        ((obs k).sizeRead).isSome = true ∧ (obs k).openRes ≠ OpenRes.goneErr) →
      wait_for_download obs timeout interval = Except.ok true ∨
      wait_for_download obs timeout interval = Except.ok false) ∧
    (∀ s : Nat,
      wait_for_download (fun _ => ⟨true, some s, OpenRes.goneErr⟩) 30 1
        = Except.error ()) := by
  refine ⟨?_, ?_, ?_⟩
  · intro obs obs2 timeout interval h
    exact waitAux_congr obs obs2 _ 0 (-1)
      (fun i _ h2 => h i (by rw [Nat.zero_add] at h2; exact h2))
  · intro obs timeout interval h
    obtain ⟨b, hb⟩ := waitAux_no_error obs _ 0 (-1)
      (fun i _ h2 h3 => h i (by rw [Nat.zero_add] at h2; exact h2) h3)
    cases b
    · exact Or.inr hb
    · exact Or.inl hb
  · intro s
    rw [wait_for_download, iterCount_one,
      waitAux_step_grow _ 29 0 (-1) s rfl rfl
        (by have hge := Int.natCast_nonneg s; omega)]
    exact waitAux_step_openErr _ 28 1 (s : Int) s rfl rfl rfl rfl

/-- C5, witness: at the default 30-poll budget the result ignores what the
trace does from poll 30 on; a trace whose size reads all succeed and whose
opens never fail non-Permission ends in `ok true` or `ok false`; and a
present constant-size trace whose `open` raises a non-Permission error
crashes the check. -/
theorem C5_witness :
    wait_for_download
        (fun k => if k < 40 then ⟨true, some 7, OpenRes.ok⟩
          else ⟨false, none, OpenRes.permErr⟩) 30 1
      = wait_for_download (fun _ => ⟨true, some 7, OpenRes.ok⟩) 30 1 ∧
    (wait_for_download (fun _ => ⟨true, some 7, OpenRes.ok⟩) 30 1 = Except.ok true ∨
      wait_for_download (fun _ => ⟨true, some 7, OpenRes.ok⟩) 30 1 = Except.ok false) ∧
    wait_for_download (fun _ => ⟨true, some 7, OpenRes.goneErr⟩) 30 1
      = Except.error () := by
  refine ⟨C5_terminates_bounded.1 _ _ 30 1 ?_, C5_terminates_bounded.2.1 _ 30 1 ?_,
    C5_terminates_bounded.2.2 7⟩
  · decide
  · decide

/-- C6, counterexample to the claim as stated: a cross-volume move whose copy
fails after 1 of 3 bytes.  The error is surfaced, but the partial destination
file (content `[3]`) remains visible at the destination: `shutil.move`
performs no cleanup of the partial artifact. -/
theorem C6_counterexample :
    (shutil_move ⟨[], [("/w/a.bin".toList, [3, 4, 5])]⟩ ("/w/a.bin".toList)
        ("/dest/a.bin".toList) (MoveBeh.copyFail 1)).2 = true ∧
    ((shutil_move ⟨[], [("/w/a.bin".toList, [3, 4, 5])]⟩ ("/w/a.bin".toList)
        ("/dest/a.bin".toList) (MoveBeh.copyFail 1)).1).file ("/dest/a.bin".toList)
      = some [3] := by
  decide

/-- C6, amended: on success (same-volume rename, or completed cross-volume
copy-then-delete) the source file no longer exists at its original path and
the destination holds its content.  On any failure the source file is left
intact at its original path; but a copy that fails mid-way leaves the
written prefix visible at the destination (no cleanup is performed before
the error is surfaced) — only a copy that could not open the destination
leaves the destination unchanged. -/
theorem C6_move_failure_effects :
    ∀ (fs : FS) (src dst : List Char) (c : List Nat), fs.file src = some c → src ≠ dst →
      ((shutil_move fs src dst MoveBeh.rename).2 = false ∧
        ((shutil_move fs src dst MoveBeh.rename).1).file src = none ∧
        ((shutil_move fs src dst MoveBeh.rename).1).file dst = some c) ∧
      ((shutil_move fs src dst MoveBeh.copy).2 = false ∧
        ((shutil_move fs src dst MoveBeh.copy).1).file src = none ∧
        ((shutil_move fs src dst MoveBeh.copy).1).file dst = some c) ∧
      (∀ w, (shutil_move fs src dst (MoveBeh.copyFail w)).2 = true ∧
        ((shutil_move fs src dst (MoveBeh.copyFail w)).1).file src = some c ∧
        ((shutil_move fs src dst (MoveBeh.copyFail w)).1).file dst = some (c.take w)) ∧
      ((shutil_move fs src dst MoveBeh.copyOpenFail).2 = true ∧
        ((shutil_move fs src dst MoveBeh.copyOpenFail).1).file src = some c ∧
        ((shutil_move fs src dst MoveBeh.copyOpenFail).1).file dst = fs.file dst) := by
  intro fs src dst c h hne
  have hds : dst ≠ src := fun e => hne e.symm
  refine ⟨?_, ?_, fun w => ?_, ?_⟩
  · rw [shutil_move_rename fs src dst c h]
    refine ⟨rfl, ?_, file_setFile_self _ _ _⟩
    rw [file_setFile_ne _ _ _ _ hne]
    exact file_delFile_self fs src
  · rw [shutil_move_copy fs src dst c h]
    refine ⟨rfl, file_delFile_self _ src, ?_⟩
    rw [file_delFile_ne _ _ _ hds]
    exact file_setFile_self _ _ _
  · rw [shutil_move_copyFail fs src dst c w h]
    refine ⟨rfl, ?_, file_setFile_self _ _ _⟩
    rw [file_setFile_ne _ _ _ _ hne]
    exact h
  · rw [shutil_move_copyOpenFail fs src dst c h]
    exact ⟨rfl, h, rfl⟩

/-- C6, witness: the amended theorem at a concrete two-byte file: the
same-volume rename removes the source, and a copy failing after one byte
surfaces the error while leaving `[1]` at the destination and the source
intact. -/
theorem C6_witness :
    ((shutil_move ⟨[], [("/w/b.bin".toList, [1, 2])]⟩ ("/w/b.bin".toList)
        ("/dest/b.bin".toList) MoveBeh.rename).1).file ("/w/b.bin".toList) = none ∧
    ((shutil_move ⟨[], [("/w/b.bin".toList, [1, 2])]⟩ ("/w/b.bin".toList)
        ("/dest/b.bin".toList) (MoveBeh.copyFail 1)).1).file ("/w/b.bin".toList)
      = some [1, 2] ∧
    ((shutil_move ⟨[], [("/w/b.bin".toList, [1, 2])]⟩ ("/w/b.bin".toList)
        ("/dest/b.bin".toList) (MoveBeh.copyFail 1)).1).file ("/dest/b.bin".toList)
      = some ([1, 2].take 1) := by
  have h := C6_move_failure_effects ⟨[], [("/w/b.bin".toList, [1, 2])]⟩
    ("/w/b.bin".toList) ("/dest/b.bin".toList) [1, 2] (by decide) (by decide)
  exact ⟨h.1.2.1, (h.2.2.1 1).2.1, (h.2.2.1 1).2.2⟩

/-- C7, counterexample to the claim as stated: `/dest/r.txt` is resolved as
free, but by move time (after the deliberate `time.sleep(1)`) another file
with content `[9]` occupies it.  The claim requires one re-resolution and
retry, or a Failed outcome with the file remaining at the source; instead
the move executes against the stale resolution: outcome `moved /dest/r.txt`,
the source is gone, and the occupant is silently overwritten with `[1]`. -/
theorem C7_counterexample :
    (move_file ⟨["/dest".toList], [("/w/r.txt".toList, [1])]⟩
        ⟨["/dest".toList], [("/w/r.txt".toList, [1]), ("/dest/r.txt".toList, [9])]⟩
        ("/w/r.txt".toList) ("/dest".toList) MoveBeh.rename).2
      = MoveOutcome.moved ("/dest/r.txt".toList) ∧
    ((move_file ⟨["/dest".toList], [("/w/r.txt".toList, [1])]⟩
        ⟨["/dest".toList], [("/w/r.txt".toList, [1]), ("/dest/r.txt".toList, [9])]⟩
        ("/w/r.txt".toList) ("/dest".toList) MoveBeh.rename).1).file ("/w/r.txt".toList)
      = none ∧
    ((move_file ⟨["/dest".toList], [("/w/r.txt".toList, [1])]⟩
        ⟨["/dest".toList], [("/w/r.txt".toList, [1]), ("/dest/r.txt".toList, [9])]⟩
        ("/w/r.txt".toList) ("/dest".toList) MoveBeh.rename).1).file ("/dest/r.txt".toList)
      = some [1] := by
  have hr0 : get_unique_filename ⟨["/dest".toList], [("/w/r.txt".toList, [1])]⟩
      ("/dest".toList) (basenameP ("/w/r.txt".toList)) = "/dest/r.txt".toList := by
    rw [get_unique_filename]
    have hf : Nat.find (existsFreeCandidate ⟨["/dest".toList], [("/w/r.txt".toList, [1])]⟩
        ("/dest".toList) (basenameP ("/w/r.txt".toList))) = 0 := by
      rw [Nat.find_eq_zero]
      decide
    rw [hf]
    decide
  have h2 := move_file_renamed ⟨["/dest".toList], [("/w/r.txt".toList, [1])]⟩
    ⟨["/dest".toList], [("/w/r.txt".toList, [1]), ("/dest/r.txt".toList, [9])]⟩
    ("/w/r.txt".toList) ("/dest".toList) [1] (by decide) (by decide)
  rw [hr0] at h2
  rw [h2]
  refine ⟨rfl, ?_, ?_⟩ <;> decide

/-- C7, amended: `move_file` performs no re-resolution and no collision
check at move time: under same-volume rename semantics the move is executed
against the path resolved before the sleep, so when that path has become
occupied the occupant is silently replaced by the source's content, the
outcome is `moved` (never Failed), and the source file does not remain at
its source path. -/
theorem C7_stale_resolution_overwrites :
    ∀ (fsR fsM : FS) (src dest r : List Char) (c1 c2 : List Nat),
      pathExists fsR dest = true →
      r = get_unique_filename fsR dest (basenameP src) →
      fsM.file src = some c1 →
      fsM.file r = some c2 →
      r ≠ src →
      (move_file fsR fsM src dest MoveBeh.rename).2 = MoveOutcome.moved r ∧
      (move_file fsR fsM src dest MoveBeh.rename).2 ≠ MoveOutcome.failed ∧
      ((move_file fsR fsM src dest MoveBeh.rename).1).file r = some c1 ∧
      ((move_file fsR fsM src dest MoveBeh.rename).1).file src = none := by
  intro fsR fsM src dest r c1 c2 hd hres hs hocc hne
  subst hres
  rw [move_file_renamed fsR fsM src dest c1 hd hs]
  refine ⟨rfl, fun e => MoveOutcome.noConfusion e, file_setFile_self _ _ _, ?_⟩
  rw [file_setFile_ne _ _ _ _ (fun e => hne e.symm)]
  exact file_delFile_self fsM src

/-- C7, witness: the amended theorem at a concrete race: resolution over a
state where `/dest/s.txt` is free, the move over a state where it holds
`[9]`; the stale path is overwritten with the source content `[5]`. -/
theorem C7_witness :
    (move_file ⟨["/dest".toList], [("/w/s.txt".toList, [5])]⟩
        ⟨["/dest".toList], [("/w/s.txt".toList, [5]), ("/dest/s.txt".toList, [9])]⟩
        ("/w/s.txt".toList) ("/dest".toList) MoveBeh.rename).2
      = MoveOutcome.moved ("/dest/s.txt".toList) ∧
    ((move_file ⟨["/dest".toList], [("/w/s.txt".toList, [5])]⟩
        ⟨["/dest".toList], [("/w/s.txt".toList, [5]), ("/dest/s.txt".toList, [9])]⟩
        ("/w/s.txt".toList) ("/dest".toList) MoveBeh.rename).1).file ("/w/s.txt".toList)
      = none := by
  have hr0 : get_unique_filename ⟨["/dest".toList], [("/w/s.txt".toList, [5])]⟩
      ("/dest".toList) (basenameP ("/w/s.txt".toList)) = "/dest/s.txt".toList := by
    rw [get_unique_filename]
    have hf : Nat.find (existsFreeCandidate ⟨["/dest".toList], [("/w/s.txt".toList, [5])]⟩
        ("/dest".toList) (basenameP ("/w/s.txt".toList))) = 0 := by
      rw [Nat.find_eq_zero]
      decide
    rw [hf]
    decide
  have h := C7_stale_resolution_overwrites ⟨["/dest".toList], [("/w/s.txt".toList, [5])]⟩
    ⟨["/dest".toList], [("/w/s.txt".toList, [5]), ("/dest/s.txt".toList, [9])]⟩
    ("/w/s.txt".toList) ("/dest".toList) ("/dest/s.txt".toList) [5] [9]
    (by decide) hr0.symm (by decide) (by decide) (by decide)
  exact ⟨h.1, h.2.2.2⟩

/-- C8, counterexample to the claim as stated: the path is briefly absent at
poll 0 (retried), and at poll 1 the file exists but the size read fails (the
file vanished between `os.path.exists` and `os.path.getsize`).  The claim
requires this transient I/O error to be retried and never surfaced as fatal;
instead the uncaught `OSError` escapes the stability check. -/
theorem C8_counterexample :
    wait_for_download
        (fun k => if k = 0 then ⟨false, none, OpenRes.ok⟩ else ⟨true, none, OpenRes.ok⟩)
        30 1
      = Except.error () := rfl

/-- C8, amended: brief absence of the path is retried within the loop up to
the timeout and is never fatal: a path absent at every poll yields the
timeout outcome `ok false` (part 1), and a path absent for the first `d`
polls that then appears with a constant size is declared stable two polls
later (part 2).  A size read that fails at the first poll where the path
exists, however, is not retried: it raises out of the stability check
(part 3). -/
theorem C8_transient_absence_retried :
    (∀ (obs : Nat → FileObs) (timeout interval : Nat),
      (∀ k, (obs k).present = false) →
      wait_for_download obs timeout interval = Except.ok false) ∧
    (∀ d s : Nat,
      wait_for_download
        (fun k => if k < d then ⟨false, none, OpenRes.ok⟩ else ⟨true, some s, OpenRes.ok⟩)
        (d + 2) 1 = Except.ok true) ∧
    (∀ (obs : Nat → FileObs) (timeout interval m : Nat),
      m < iterCount timeout interval →
      (∀ j, j < m → (obs j).present = false) →
      (obs m).present = true → (obs m).sizeRead = none →
      wait_for_download obs timeout interval = Except.error ()) := by
  refine ⟨?_, ?_, ?_⟩
  · intro obs timeout interval h
    exact waitAux_absent obs _ 0 (-1) h
  · intro d
    induction d with
    | zero =>
      intro s
      rw [wait_for_download]
      rw [waitAux_congr _ (fun _ => ⟨true, some s, OpenRes.ok⟩) _ 0 (-1)
        (fun i _ _ => by simp)]
      exact waitAux_const_ok s 0
    | succ d ih =>
      intro s
      rw [wait_for_download, iterCount_one,
        waitAux_step_absent _ (d + 2) 0 (-1) (by simp),
        waitAux_shift,
        waitAux_congr _
          (fun k => if k < d then ⟨false, none, OpenRes.ok⟩ else ⟨true, some s, OpenRes.ok⟩)
          (d + 2) 0 (-1) ?_]
      · have h := ih s
        rwa [wait_for_download, iterCount_one] at h
      · intro i _ _
        by_cases hi : i < d <;> simp [hi, Nat.add_lt_add_iff_right]
  · intro obs timeout interval m hm habs hp hs
    rw [wait_for_download]
    exact waitAux_error_at obs m _ 0 (-1) hm
      (fun j _ h2 => habs j (by rw [Nat.zero_add] at h2; exact h2))
      (by rw [Nat.zero_add]; exact hp) (by rw [Nat.zero_add]; exact hs)

/-- C8, witness: a permanently absent path times out with `ok false`; a path
absent for 3 polls then present at size 9 is stable within 5 polls; a path
absent for 2 polls whose first successful existence check is followed by a
failing size read raises. -/
theorem C8_witness :
    wait_for_download (fun _ => ⟨false, none, OpenRes.ok⟩) 30 1 = Except.ok false ∧
    wait_for_download
        (fun k => if k < 3 then ⟨false, none, OpenRes.ok⟩ else ⟨true, some 9, OpenRes.ok⟩)
        5 1 = Except.ok true ∧
    wait_for_download
        (fun k => if k < 2 then ⟨false, none, OpenRes.ok⟩ else ⟨true, none, OpenRes.ok⟩)
        30 1 = Except.error () := by
  refine ⟨C8_transient_absence_retried.1 _ 30 1 (fun k => rfl),
    C8_transient_absence_retried.2.1 3 9,
    C8_transient_absence_retried.2.2 _ 30 1 2 (by decide) ?_ (by decide) (by decide)⟩
  decide

/-- C9, counterexample to the claim as stated: the state right after a first
creation event for `/w/[a]f.txt` moved the file to `/dest/[a]f.txt`.  The
claim requires the dispatcher to de-duplicate in-flight paths and ignore the
re-entrant second event; instead `on_created` has no de-duplication: the
second event is fully processed — its stability wait polls the now-absent
source path for the whole 30-poll budget and ends in the timeout outcome,
not in being ignored. -/
theorem C9_counterexample :
    on_created [("[a]".toList, "/dest".toList)]
        ⟨["/dest".toList], [("/dest/[a]f.txt".toList, [7])]⟩
        ("/w/[a]f.txt".toList) false MoveBeh.rename
      = (⟨["/dest".toList], [("/dest/[a]f.txt".toList, [7])]⟩,
          MoveOutcome.skippedTimeout) := by
  exact on_created_absent _ _ _ _ (by decide)

/-- C9, amended: two creation events for the same path, dispatched one after
the other (watchdog dispatches events serially from one thread), result in
exactly one move — but not through de-duplication, which the code does not
have.  The first event moves the file to the resolved destination `r`; the
second event is processed in full and, finding the source path absent, runs
its stability wait to the timeout and changes nothing. -/
theorem C9_duplicate_events_one_move :
    ∀ (rules : List (List Char × List Char)) (fs : FS) (src : List Char)
      (c : List Nat) (tag dest r : List Char),
      fs.file src = some c →
      extract_tag (basenameP src) = some tag →
      lookupRule rules tag = some dest →
      pathExists fs dest = true →
      r = get_unique_filename fs dest (basenameP src) →
      r ≠ src →
      on_created rules fs src false MoveBeh.rename
          = (setFile (delFile fs src) r c, MoveOutcome.moved r) ∧
      (setFile (delFile fs src) r c).file src = none ∧
      (setFile (delFile fs src) r c).file r = some c ∧
      on_created rules (setFile (delFile fs src) r c) src false MoveBeh.rename
          = (setFile (delFile fs src) r c, MoveOutcome.skippedTimeout) := by
  intro rules fs src c tag dest r h ht hr hd hres hne
  subst hres
  have hsrc : (setFile (delFile fs src)
      (get_unique_filename fs dest (basenameP src)) c).file src = none := by
    rw [file_setFile_ne _ _ _ _ (fun e => hne e.symm)]
    exact file_delFile_self fs src
  refine ⟨?_, hsrc, file_setFile_self _ _ _, on_created_absent _ _ _ _ hsrc⟩
  rw [on_created_hit rules fs src MoveBeh.rename c tag dest h ht hr,
    move_file_renamed fs fs src dest c hd h]

/-- C9, witness: the amended theorem on a concrete pair of duplicate events
for `/w/[a]g.txt`: the first dispatch moves the file to `/dest/[a]g.txt`,
the second dispatch times out and leaves the state unchanged. -/
theorem C9_witness :
    on_created [("[a]".toList, "/dest".toList)]
        ⟨["/dest".toList], [("/w/[a]g.txt".toList, [4])]⟩
        ("/w/[a]g.txt".toList) false MoveBeh.rename
      = (setFile (delFile ⟨["/dest".toList], [("/w/[a]g.txt".toList, [4])]⟩
            ("/w/[a]g.txt".toList)) ("/dest/[a]g.txt".toList) [4],
          MoveOutcome.moved ("/dest/[a]g.txt".toList)) ∧
    on_created [("[a]".toList, "/dest".toList)]
        (setFile (delFile ⟨["/dest".toList], [("/w/[a]g.txt".toList, [4])]⟩
          ("/w/[a]g.txt".toList)) ("/dest/[a]g.txt".toList) [4])
        ("/w/[a]g.txt".toList) false MoveBeh.rename
      = (setFile (delFile ⟨["/dest".toList], [("/w/[a]g.txt".toList, [4])]⟩
            ("/w/[a]g.txt".toList)) ("/dest/[a]g.txt".toList) [4],
          MoveOutcome.skippedTimeout) := by
  have hr0 : get_unique_filename ⟨["/dest".toList], [("/w/[a]g.txt".toList, [4])]⟩
      ("/dest".toList) (basenameP ("/w/[a]g.txt".toList)) = "/dest/[a]g.txt".toList := by
    rw [get_unique_filename]
    have hf : Nat.find (existsFreeCandidate
        ⟨["/dest".toList], [("/w/[a]g.txt".toList, [4])]⟩
        ("/dest".toList) (basenameP ("/w/[a]g.txt".toList))) = 0 := by
      rw [Nat.find_eq_zero]
      decide
    rw [hf]
    decide
  have h := C9_duplicate_events_one_move [("[a]".toList, "/dest".toList)]
    ⟨["/dest".toList], [("/w/[a]g.txt".toList, [4])]⟩ ("/w/[a]g.txt".toList) [4]
    ("[a]".toList) ("/dest".toList) ("/dest/[a]g.txt".toList)
    (by decide) (by decide) (by decide) (by decide) hr0.symm (by decide)
  exact ⟨h.1, h.2.2.2⟩

/-- C10, counterexample to the claim as stated: `"..gz"` contains more than
one dot, so the claim requires the collision counter before the last
extension (`._1.gz`); but `os.path.splitext` treats a name whose characters
before the last dot are all dots as having no extension, so the code appends
the counter to the whole name: the collision resolves to `..gz_1`. -/
theorem C10_counterexample :
    get_unique_filename ⟨[], [("/dest/..gz".toList, [0])]⟩ ("/dest".toList)
        ("..gz".toList) = "/dest/..gz_1".toList ∧
    get_unique_filename ⟨[], [("/dest/..gz".toList, [0])]⟩ ("/dest".toList)
        ("..gz".toList) ≠ "/dest/._1.gz".toList := by
  have hc1 : candidate ("..gz".toList) 1 = "..gz_1".toList := by
    rw [candidate, if_neg (by decide), natDigits_one]
    decide
  have hfind : Nat.find (existsFreeCandidate ⟨[], [("/dest/..gz".toList, [0])]⟩
      ("/dest".toList) ("..gz".toList)) = 1 := by
    rw [Nat.find_eq_iff]
    refine ⟨by rw [hc1]; decide, ?_⟩
    intro n hn
    interval_cases n
    decide
  rw [get_unique_filename, hfind, hc1]
  exact ⟨rfl, by decide⟩

/-- C10, amended: when at least one non-dot character precedes the file
name's last dot, the collision counter is inserted before the last extension
only (`archive.tar.gz` resolves to `archive.tar_1.gz`); when the name has no
dot, or every character before its last dot is itself a dot (`"..gz"`,
`".bashrc"`), the counter is appended to the whole name. -/
theorem C10_counter_before_last_extension :
    (∀ (pre suf : List Char) (k : Nat), '.' ∉ suf → (∃ c ∈ pre, c ≠ '.') →
      candidate (pre ++ '.' :: suf) (k + 1)
        = pre ++ '_' :: (natDigits (k + 1) ++ '.' :: suf)) ∧
    (∀ (name : List Char) (k : Nat), '.' ∉ name →
      candidate name (k + 1) = name ++ '_' :: natDigits (k + 1)) ∧
    (∀ (pre suf : List Char) (k : Nat), '.' ∉ suf → (∀ c ∈ pre, c = '.') →
      candidate (pre ++ '.' :: suf) (k + 1)
        = (pre ++ '.' :: suf) ++ '_' :: natDigits (k + 1)) ∧
    get_unique_filename ⟨[], [("/dest/archive.tar.gz".toList, [0])]⟩ ("/dest".toList)
        ("archive.tar.gz".toList) = "/dest/archive.tar_1.gz".toList := by
  refine ⟨?_, ?_, ?_, ?_⟩
  · intro pre suf k h1 h2
    rw [candidate, if_neg (Nat.succ_ne_zero k), splitext_mid pre suf h1 h2]
  · intro name k h
    rw [candidate, if_neg (Nat.succ_ne_zero k), splitext_noDot name h]
    simp
  · intro pre suf k h1 h2
    rw [candidate, if_neg (Nat.succ_ne_zero k), splitext_allDot pre suf h1 h2]
    simp
  · have hc1 : candidate ("archive.tar.gz".toList) 1 = "archive.tar_1.gz".toList := by
      rw [candidate, if_neg (by decide), natDigits_one]
      decide
    have hfind : Nat.find (existsFreeCandidate ⟨[], [("/dest/archive.tar.gz".toList, [0])]⟩
        ("/dest".toList) ("archive.tar.gz".toList)) = 1 := by
      rw [Nat.find_eq_iff]
      refine ⟨by rw [hc1]; decide, ?_⟩
      intro n hn
      interval_cases n
      decide
    rw [get_unique_filename, hfind, hc1]
    decide

/-- C10, witness: the three amended cases instantiated: splitting
`archive.tar.gz` before `.gz`, appending to the dotless `name`, and
appending to the all-dots-prefix name `..gz`. -/
theorem C10_witness :
    candidate ("archive.tar".toList ++ '.' :: "gz".toList) 1
      = "archive.tar".toList ++ '_' :: (natDigits 1 ++ '.' :: "gz".toList) ∧
    candidate ("name".toList) 1 = "name".toList ++ '_' :: natDigits 1 ∧
    candidate (".".toList ++ '.' :: "gz".toList) 1
      = (".".toList ++ '.' :: "gz".toList) ++ '_' :: natDigits 1 := by
  exact ⟨C10_counter_before_last_extension.1 ("archive.tar".toList) ("gz".toList) 0
      (by decide) (by decide),
    C10_counter_before_last_extension.2.1 ("name".toList) 0 (by decide),
    C10_counter_before_last_extension.2.2.1 (".".toList) ("gz".toList) 0
      (by decide) (by decide)⟩
